import Mathlib

/-!
Verification of the Gazette broker core: a shallow embedding of the
protocol validators (pkg/protocol/rpc_extensions.go), the Append RPC
appender and pipeline commit path (broker package), the allocator's
batched Etcd transaction and dead-assignment convergence pass
(v3.allocator package), and the keyspace watch-apply header discipline
(pkg/keyspace package), together with theorems settling the behavioural
claims of the specification against these definitions.

Conventions: Go int64 fields become Int (journal offsets never approach
the 2^63 boundary in any claim considered here), Go byte slices become
List Nat, Go nil-able pointers become Option, and Go error returns become
Option String (none = nil error) or Except String.
-/

/-- SHA-1 digests are modelled abstractly: the digest of a byte stream is
represented by the stream itself (an injective stand-in; no claim below
depends on any property of SHA-1 beyond determinism and injectivity). -/
def sha1sum (bs : List Nat) : List Nat := bs

/-- protocol.Fragment: a contiguous byte range of a journal with digest.
Journal, Begin, End, Sum, CompressionCodec, BackingStore. -/
structure Fragment where
  journal : String
  begin : Int
  end_ : Int
  sum : List Nat
  compressionCodec : Int
  backingStore : String
deriving DecidableEq, Repr

/-- Fragment.ContentLength() = End - Begin. -/
def Fragment.contentLength (f : Fragment) : Int := f.end_ - f.begin

/-- protocol.Route: ordered broker members of an Item; slot 0 is primary.
Only carried through validators here, never inspected. -/
structure Route where
  members : List String
  primary : Int
deriving DecidableEq, Repr

/-- The environment of sub-validators a message validator calls into.
Journal.Validate, Route.Validate, Fragment.Validate, url.Parse and the
Status_name table live outside the sources under verification, so they
are abstracted as boolean predicates (true = valid). -/
structure Validators where
  journalOk : String → Bool
  routeOk : Route → Bool
  fragmentOk : Fragment → Bool
  urlOk : String → Bool
  statusOk : Int → Bool

/-- A Validators instance accepting everything; used for concrete runs. -/
def allOk : Validators :=
  ⟨fun _ => true, fun _ => true, fun _ => true, fun _ => true, fun _ => true⟩

/-- Status_OK: the zero value of the protocol Status enum. -/
def statusOKCode : Int := 0

/-- protocol.ReadResponse. Content is nil-able ([]byte), Route and
Fragment are nil-able pointers. -/
structure ReadResponse where
  status : Int
  offset : Int
  writeHead : Int
  route : Option Route
  fragment : Option Fragment
  fragmentUrl : String
  content : Option (List Nat)
deriving DecidableEq, Repr

/-- The tail of ReadResponse.Validate shared after the Route check:
WriteHead bound, Fragment/Offset/WriteHead consistency and FragmentUrl
checks (rpc_extensions.go metadata branch). -/
def readResponseValidateTail (v : Validators) (m : ReadResponse) : Option String :=
  if m.writeHead < 0 then some "invalid WriteHead"
  else
    match m.fragment with
    | some f =>
      if !(v.fragmentOk f) then some "Fragment"
      else if m.offset < f.begin ∨ m.offset ≥ f.end_ then some "invalid Offset"
      else if m.writeHead < f.end_ then some "invalid WriteHead vs Fragment"
      else if m.fragmentUrl != "" ∧ !(v.urlOk m.fragmentUrl) then some "FragmentUrl"
      else none
    | none =>
      if m.offset != 0 then some "unexpected Offset without Fragment"
      else if m.fragmentUrl != "" then some "unexpected FragmentUrl without Fragment"
      else none

/-- ReadResponse.Validate (rpc_extensions.go): returns some errorMessage
if the response is malformed, none otherwise. -/
def readResponseValidate (v : Validators) (m : ReadResponse) : Option String :=
  if !(v.statusOk m.status) then some "Status"
  else
    match m.content with
    | some _ =>
      if m.status != statusOKCode then some "unexpected Status with Content"
      else if m.offset != 0 then some "unexpected Offset with Content"
      else if m.writeHead != 0 then some "unexpected WriteHead with Content"
      else if m.route.isSome then some "unexpected Route with Content"
      else if m.fragment.isSome then some "unexpected Fragment with Content"
      else if m.fragmentUrl != "" then some "unexpected FragmentUrl with Content"
      else none
    | none =>
      match m.route with
      | some r => if !(v.routeOk r) then some "Route" else
          readResponseValidateTail v m
      | none => readResponseValidateTail v m

/-- protocol.AppendRequest: first message carries Journal, later messages
carry Content. -/
structure AppendRequest where
  journal : String
  content : List Nat
deriving DecidableEq, Repr

/-- AppendRequest.Validate (rpc_extensions.go). -/
def appendRequestValidate (v : Validators) (m : AppendRequest) : Option String :=
  if m.journal != "" then
    if !(v.journalOk m.journal) then some "Journal"
    else if m.content.length != 0 then some "unexpected Content"
    else none
  else if m.content.length = 0 then some "expected Content"
  else none

/-- protocol.Header as attached to broker responses. Its inner fields are
not inspected by any claim below. -/
structure PbHeader where
  revision : Int
deriving DecidableEq, Repr

/-- protocol.AppendResponse. Route, Commit and Header are nil-able. -/
structure AppendResponse where
  status : Int := 0
  header : Option PbHeader := none
  route : Option Route := none
  commit : Option Fragment := none
deriving DecidableEq, Repr

/-- AppendResponse.Validate (rpc_extensions.go): requires a valid Status,
a non-nil valid Route, and a non-nil valid Commit. -/
def appendResponseValidate (v : Validators) (m : AppendResponse) : Option String :=
  if !(v.statusOk m.status) then some "Status"
  else
    match m.route with
    | none => some "expected Route"
    | some r =>
      if !(v.routeOk r) then some "Route"
      else
        match m.commit with
        | none => some "expected Commit"
        | some c => if !(v.fragmentOk c) then some "Commit" else none

/-- protocol.ReplicateRequest. -/
structure ReplicateRequest where
  journal : String := ""
  route : Option Route := none
  proposal : Option Fragment := none
  content : Option (List Nat) := none
  contentDelta : Int := 0
  acknowledge : Bool := false
deriving DecidableEq, Repr

/-- ReplicateRequest.Validate (rpc_extensions.go). -/
def replicateRequestValidate (v : Validators) (m : ReplicateRequest) : Option String :=
  if m.journal != "" then
    -- This is an initial request.
    if !(v.journalOk m.journal) then some "Journal"
    else
      match m.route with
      | none => some "expected Route with Journal"
      | some r =>
        if !(v.routeOk r) then some "Route"
        else
          match m.proposal with
          | none => some "expected Proposal with Journal"
          | some p =>
            if !(v.fragmentOk p) then some "Proposal"
            else if p.journal != m.journal then some "Journal and Proposal.Journal mismatch"
            else if m.content.isSome then some "unexpected Content with Journal"
            else if m.contentDelta != 0 then some "unexpected ContentDelta with Journal"
            else if m.acknowledge = false then some "expected Acknowledge with Journal"
            else none
  else if m.route.isSome then some "unexpected Route without Journal"
  else
    match m.proposal with
    | some p =>
      if !(v.fragmentOk p) then some "Proposal"
      else if m.content.isSome then some "unexpected Content with Proposal"
      else if m.contentDelta != 0 then some "unexpected ContentDelta with Proposal"
      else none
    | none =>
      match m.content with
      | none => some "expected Content or Proposal"
      | some _ =>
        if m.acknowledge then some "unexpected Acknowledge with Content"
        else if m.contentDelta < 0 then some "invalid ContentDelta"
        else none

/-- The shape of an accepted initial ReplicateRequest, written after the
specification's words: carries Journal, a valid Route, a valid Proposal
whose Journal matches, Acknowledge=true, and neither Content nor nonzero
ContentDelta. -/
def replicateFirstOkSpec (v : Validators) (m : ReplicateRequest) : Bool :=
  (m.journal != "") && v.journalOk m.journal &&
  (match m.route with | some r => v.routeOk r | none => false) &&
  (match m.proposal with
   | some p => v.fragmentOk p && (p.journal == m.journal)
   | none => false) &&
  m.content.isNone && (m.contentDelta == 0) && m.acknowledge

/-- The shape of an accepted subsequent ReplicateRequest, after the
specification's words: either a Proposal without Content/ContentDelta, or
Content with ContentDelta ≥ 0 and Acknowledge=false; no Route. -/
def replicateContOkSpec (v : Validators) (m : ReplicateRequest) : Bool :=
  (m.journal == "") && m.route.isNone &&
  ((match m.proposal with | some p => v.fragmentOk p | none => false) &&
     m.content.isNone && (m.contentDelta == 0)
   || m.proposal.isNone && m.content.isSome && !m.acknowledge && decide (m.contentDelta ≥ 0))

/-! ## Allocator: Etcd keys, batched transactions, dead-assignment pass -/

/-- Keys of the coordination store under the allocator's root prefix,
modelled structurally after the documented layout
(members/zone|suffix, items/id, assign/id/zone/suffix/slot). -/
inductive EtcdKey where
  | member (zone suffix : String)
  | item (id : String)
  | assign (itemID zone suffix : String) (slot : Nat)
deriving DecidableEq, Repr

/-- An Etcd transaction compare (clientv3.Cmp), restricted to the two
predicates the converger issues. -/
inductive Cmp where
  | createRevEq (key : EtcdKey) (rev : Int)
  | modRevEq (key : EtcdKey) (rev : Int)
deriving DecidableEq, Repr

/-- An Etcd transaction operation (clientv3.Op), restricted to the
operations the converger issues. -/
inductive Op where
  | del (key : EtcdKey)
  | put (key : EtcdKey) (value : String)
deriving DecidableEq, Repr

/-- keyspace.KeyValue restricted to the fields the converger reads. -/
structure KeyValue where
  key : EtcdKey
  createRevision : Int
  modRevision : Int
deriving DecidableEq, Repr

/-- modRevisionUnchanged (allocator.go): a Cmp asserting the key has not
changed from the current KeyValue. -/
def modRevisionUnchanged (kv : KeyValue) : Cmp := .modRevEq kv.key kv.modRevision

/-- assignmentAt(asn, i).ItemID: the decoded Assignment's ItemID, which
the keyspace decoder recovers from the assignment's key. -/
def assignmentItemID (kv : KeyValue) : String :=
  match kv.key with
  | .assign itemID _ _ _ => itemID
  | _ => ""

/-- An underlying Etcd transaction as issued by txnDo: its compares and
its operations (the Else branch is always empty). -/
structure Txn where
  cmps : List Cmp
  ops : List Op
deriving DecidableEq, Repr

/-- maxTxnOps (allocator.go): cap of compares or ops per underlying Txn. -/
def maxTxnOps : Nat := 128

/-- batchedTxn (allocator.go): completed checkpoints ready to flush
(cmps/ops), the checkpoint currently being built (nextCmps/nextOps), and
the compares asserted on every underlying Txn (fixedCmps). -/
structure BatchedTxn where
  cmps : List Cmp := []
  ops : List Op := []
  nextCmps : List Cmp := []
  nextOps : List Op := []
  fixedCmps : List Cmp := []
deriving DecidableEq, Repr

/-- newBatchedTxn(ctx, kv, fixedCmps...): fresh batch with fixed cmps. -/
def newBatchedTxn (fixedCmps : List Cmp) : BatchedTxn := { fixedCmps := fixedCmps }

/-- batchedTxn.If: queue compares onto the checkpoint being built. -/
def BatchedTxn.If (b : BatchedTxn) (c : List Cmp) : BatchedTxn :=
  { b with nextCmps := b.nextCmps ++ c }

/-- batchedTxn.Then: queue ops onto the checkpoint being built. -/
def BatchedTxn.Then (b : BatchedTxn) (o : List Op) : BatchedTxn :=
  { b with nextOps := b.nextOps ++ o }

/-- Result of batchedTxn.Commit: the Go code panics when un-checkpointed
If/Then calls are pending; otherwise it issues one underlying Txn via
txnDo, which the coordination store accepts or rejects. -/
inductive CommitResult where
  | panicked
  | failed (t : Txn)
  | committed (t : Txn)
deriving DecidableEq, Repr

/-- batchedTxn.Commit (allocator.go). The coordination store is modelled
by the oracle txnOk deciding whether an issued Txn succeeds; an
unsuccessful Txn leaves the accumulated cmps/ops in place (the Go code
only truncates them after a successful response). -/
def BatchedTxn.Commit (txnOk : Txn → Bool) (b : BatchedTxn) : CommitResult × BatchedTxn :=
  if b.nextCmps ≠ [] ∨ b.nextOps ≠ [] then (.panicked, b)
  else
    let t : Txn := ⟨b.cmps, b.ops⟩
    if txnOk t then (.committed t, { b with cmps := [], ops := [] })
    else (.failed t, b)

/-- Result of one batchedTxn.Checkpoint step: the updated batch, the
underlying Txns issued during the step (zero or one), and whether the
step returned an error. -/
structure CheckpointResult where
  txn : BatchedTxn
  issued : List Txn
  errored : Bool

/-- batchedTxn.Checkpoint (allocator.go): seed fixedCmps when the batch
is empty, seal the checkpoint being built, flush to the store first if
accumulated compares or ops would exceed maxTxnOps, then append the
sealed checkpoint to the accumulated batch. -/
def BatchedTxn.Checkpoint (txnOk : Txn → Bool) (b0 : BatchedTxn) : CheckpointResult :=
  let b1 := if b0.cmps = [] then { b0 with cmps := b0.cmps ++ b0.fixedCmps } else b0
  let nc := b1.nextCmps
  let no := b1.nextOps
  let b2 := { b1 with nextCmps := [], nextOps := [] }
  if b2.cmps.length + nc.length > maxTxnOps ∨ b2.ops.length + no.length > maxTxnOps then
    match BatchedTxn.Commit txnOk b2 with
    | (.committed t, b3) =>
      let b4 := { b3 with cmps := b3.cmps ++ b3.fixedCmps }
      ⟨{ b4 with cmps := b4.cmps ++ nc, ops := b4.ops ++ no }, [t], false⟩
    | (.failed t, b3) => ⟨b3, [t], true⟩
    | (.panicked, b3) => ⟨b3, [], true⟩
  else
    ⟨{ b2 with cmps := b2.cmps ++ nc, ops := b2.ops ++ no }, [], false⟩

/-- One checkpoint's content: the compares and ops issued between two
Checkpoint calls (an atomicity unit). -/
structure Checkpoint where
  cmps : List Cmp
  ops : List Op
deriving DecidableEq, Repr

/-- State of a batched-transaction session: the batch, the trace of
underlying Txns issued so far, and whether an error occurred (after
which the converger abandons the transaction). -/
structure TxnSession where
  txn : BatchedTxn
  trace : List Txn
  errored : Bool

/-- Run one checkpoint group through the batch: If(cmps), Then(ops),
Checkpoint() — the calling pattern of the converger. -/
def runGroup (txnOk : Txn → Bool) (s : TxnSession) (g : Checkpoint) : TxnSession :=
  if s.errored then s
  else
    let r := BatchedTxn.Checkpoint txnOk ((s.txn.If g.cmps).Then g.ops)
    ⟨r.txn, s.trace ++ r.issued, r.errored⟩

/-- Run a whole converger round: each checkpoint group in order, then a
final batchedTxn.Commit. Returns the session after the final Commit and
its result. -/
def runSession (txnOk : Txn → Bool) (fixedCmps : List Cmp) (groups : List Checkpoint) :
    TxnSession × CommitResult :=
  let s := groups.foldl (runGroup txnOk) ⟨newBatchedTxn fixedCmps, [], false⟩
  if s.errored then (s, .panicked)
  else
    match BatchedTxn.Commit txnOk s.txn with
    | (.committed t, b) => (⟨b, s.trace ++ [t], false⟩, .committed t)
    | (.failed t, b) => (⟨b, s.trace ++ [t], true⟩, .failed t)
    | (.panicked, b) => (⟨b, s.trace, true⟩, .panicked)

/-- The oracle of a coordination store accepting every transaction. -/
def txnAlwaysOk : Txn → Bool := fun _ => true

/-- The batching of checkpoints into underlying Txns as the specification
describes it, written after the spec's words: checkpoints are
concatenated into one transaction seeded with the fixed compares until
adding the next checkpoint would push compares or ops past maxTxnOps, at
which point the accumulated transaction is flushed and a new one is
seeded; the final Commit flushes what remains (an empty transaction when
no checkpoint was ever made). -/
def specBatchesAux (fixedCmps : List Cmp) (accC : List Cmp) (accO : List Op) :
    List Checkpoint → List Txn
  | [] => [⟨accC, accO⟩]
  | g :: gs =>
    if accC.length + g.cmps.length > maxTxnOps ∨ accO.length + g.ops.length > maxTxnOps then
      ⟨accC, accO⟩ :: specBatchesAux fixedCmps (fixedCmps ++ g.cmps) g.ops gs
    else specBatchesAux fixedCmps (accC ++ g.cmps) (accO ++ g.ops) gs

/-- See specBatchesAux: the whole expected Txn trace of a session. With
no checkpoints at all, the final Commit issues one empty Txn; otherwise
batching starts from the seeded fixed compares. -/
def specBatches (fixedCmps : List Cmp) : List Checkpoint → List Txn
  | [] => [⟨[], []⟩]
  | gs => specBatchesAux fixedCmps fixedCmps [] gs

/-- ItemKey(ks, id): the Etcd key of an Item. -/
def ItemKey (id : String) : EtcdKey := .item id

/-- removeDeadAssignments (allocator.go), expressed as the checkpoint
groups it issues through the checkpointTxn: walk leading runs of
Assignments sharing an ItemID; for each run, one checkpoint verifying
the Item does not exist (CreateRevision = 0) and that each Assignment is
unchanged, then deleting each Assignment. -/
def removeDeadAssignments (asn : List KeyValue) : List Checkpoint :=
  match asn with
  | [] => []
  | a :: rest =>
    let itemID := assignmentItemID a
    let grp := a :: rest.takeWhile (fun kv => assignmentItemID kv = itemID)
    let rest' := rest.dropWhile (fun kv => assignmentItemID kv = itemID)
    ⟨Cmp.createRevEq (ItemKey itemID) 0 :: grp.map modRevisionUnchanged,
      grp.map (fun kv => Op.del kv.key)⟩ :: removeDeadAssignments rest'
termination_by asn.length
decreasing_by
  simp only [List.length_cons]
  exact Nat.lt_succ_of_le (List.dropWhile_suffix _).sublist.length_le

/-- Modelled from the spec: converge (allocator.go) walks Items
left-joined with their current Assignments in sorted order; the
Assignment ranges skipped by the join — exactly those whose ItemID
matches no existing Item — are handed to removeDeadAssignments. The
leftJoin helper itself is not among the sources, so the dead-assignment
pass is modelled by its documented semantics: the Assignments passed are
those without a matching Item. -/
def convergeDeadPass (itemIDs : List String) (assignments : List KeyValue) :
    List Checkpoint :=
  removeDeadAssignments
    (assignments.filter (fun kv => !(itemIDs.contains (assignmentItemID kv))))

/-! ## KeySpace: watch-response application and header discipline -/

/-- etcdserverpb.ResponseHeader. -/
structure EtcdHdr where
  clusterId : Int
  memberId : Int
  revision : Int
  raftTerm : Int
deriving DecidableEq, Repr

/-- Modelled from the spec: patchHeader (pkg/keyspace, not among the
sources; behaviour pinned by KeySpaceSuite.TestHeaderPatching). The
ClusterID may never change once observed; an uninitialized header
(Revision 0) accepts any update; otherwise the update's Revision must
equal the current one when expectEqual, and strictly exceed it when not.
On success the header is replaced wholesale by the update. -/
def patchHeader (h : EtcdHdr) (update : EtcdHdr) (expectEqual : Bool) :
    Except String EtcdHdr :=
  if h.clusterId ≠ 0 ∧ update.clusterId ≠ h.clusterId then
    .error "etcd ClusterID mismatch"
  else if h.revision ≠ 0 ∧ expectEqual ∧ update.revision ≠ h.revision then
    .error "etcd Revision mismatch, expected equal"
  else if h.revision ≠ 0 ∧ !expectEqual ∧ update.revision ≤ h.revision then
    .error "etcd Revision mismatch, expected greater"
  else .ok update

/-- A single watched Etcd event: a put of key/value or a delete of key. -/
structure WatchEvent where
  isPut : Bool
  key : String
  value : String
deriving DecidableEq, Repr

/-- clientv3.WatchResponse: a revisioned header plus events. -/
structure WatchResponse where
  header : EtcdHdr
  events : List WatchEvent
deriving DecidableEq, Repr

/-- The keyspace state a claim observes: the merged header and the
decoded key/value mapping (sorted association list). -/
structure KeySpace where
  header : EtcdHdr
  keyValues : List (String × String)
deriving DecidableEq, Repr

/-- Modelled from the spec: apply one event — upsert on put, removal on
delete — keeping the association list keyed uniquely. -/
def applyEvent (kvs : List (String × String)) (e : WatchEvent) : List (String × String) :=
  if e.isPut then (e.key, e.value) :: kvs.filter (fun kv => kv.1 ≠ e.key)
  else kvs.filter (fun kv => kv.1 ≠ e.key)

/-- Modelled from the spec: KeySpace.apply (pkg/keyspace, not among the
sources; behaviour pinned by KeySpaceSuite.TestWatchResponseApply).
Each WatchResponse's header is validated and merged against the current
header with patchHeader in non-strict mode (Revision must strictly
increase response over response), then its events are applied in order. -/
def ksApply (ks : KeySpace) (resps : List WatchResponse) : Except String KeySpace :=
  match resps with
  | [] => .ok ks
  | r :: rest =>
    match patchHeader ks.header r.header false with
    | .error e => .error e
    | .ok h => ksApply ⟨h, r.events.foldl applyEvent ks.keyValues⟩ rest

/-! ## Broker: Spool, appender and the Append RPC -/

/-- pkg/fragment.Spool, modelled from the spec: the open, mutable
fragment at the write head of a replica — the committed Fragment plus
the bytes appended (replicated) since the last committed proposal. The
Spool implementation is not among the sources. -/
structure Spool where
  fragment : Fragment
  content : List Nat
deriving DecidableEq, Repr

/-- Modelled from the spec: Spool.Next() returns the candidate Fragment
to be committed — Begin = the committed End, End advanced by the
appended content length, Sum the digest of the appended bytes. -/
def Spool.next (s : Spool) : Fragment :=
  { s.fragment with
      begin := s.fragment.end_
      end_ := s.fragment.end_ + s.content.length
      sum := sha1sum s.content }

/-- Modelled from the spec: a replica applies an acknowledged (or
rolling) Proposal by adopting it as the committed Fragment and dropping
any buffered content it covered or rolled back. -/
def Spool.applyProposal (_s : Spool) (p : Fragment) : Spool := ⟨p, []⟩

/-- protocol.JournalSpec_Fragment: the fields updateProposal reads. -/
structure JournalSpecFragment where
  length : Int
  compressionCodec : Int
  stores : List String
deriving DecidableEq, Repr

/-- updateProposal (append_api.go): don't touch a non-empty Fragment
short of its target length; otherwise roll it forward to a zero-length
Fragment at the current End with the spec's codec and backing store. -/
def updateProposal (cur : Fragment) (spec : JournalSpecFragment) : Fragment × Bool :=
  if 0 < cur.contentLength ∧ cur.contentLength < spec.length then (cur, false)
  else
    let next : Fragment :=
      { cur with
          begin := cur.end_
          compressionCodec := spec.compressionCodec
          backingStore := match spec.stores with | s :: _ => s | [] => "" }
    (next, next ≠ cur)

/-- The appender state during one Append RPC (append_api.go), together
with the local replica's Spool and the ReplicateRequests scattered so
far. reqContent is the byte stream fed to reqSummer. -/
structure Appender where
  spool : Spool
  reqFragment : Option Fragment
  reqContent : List Nat
  reqErr : Option String
  scattered : List ReplicateRequest
deriving DecidableEq, Repr

/-- pipeline.scatter as observed by the local replica: record the
request and, when it carries content or a proposal, apply it to the
local Spool. -/
def Appender.scatter (a : Appender) (r : ReplicateRequest) : Appender :=
  let spool :=
    match r.proposal with
    | some p => a.spool.applyProposal p
    | none =>
      match r.content with
      | some c => { a.spool with content := a.spool.content ++ c }
      | none => a.spool
  { a with spool := spool, scattered := a.scattered ++ [r] }

/-- beginAppending (append_api.go): potentially roll the Fragment
forward (scattering an unacknowledged proposal), then start a request
Fragment at Begin = End = the Spool's current End with a fresh summer. -/
def beginAppending (spool : Spool) (spec : JournalSpecFragment) : Appender :=
  let (proposal, update) := updateProposal spool.fragment spec
  let a : Appender := ⟨spool, none, [], none, []⟩
  let a := if update then a.scatter { proposal := some proposal, acknowledge := false } else a
  { a with
      reqFragment := some
        { journal := a.spool.fragment.journal
          begin := a.spool.fragment.end_
          end_ := a.spool.fragment.end_
          sum := []
          compressionCodec := 0
          backingStore := "" }
      reqContent := [] }

/-- appender.onRecv, terminal branch (append_api.go): on end-of-input
seal the request Fragment's Sum; on EOF scatter Spool.Next() as the
acknowledged commit proposal; on a read or validation error scatter the
committed Spool Fragment as an acknowledged rollback, recording the
error and dropping the request Fragment. e = none models io.EOF. -/
def Appender.onRecvTerminal (a : Appender) (e : Option String) : Appender :=
  match a.reqFragment with
  | none => a
  | some f =>
    let f := { f with sum := sha1sum a.reqContent }
    match e with
    | none =>
      let a := { a with reqFragment := some f }
      a.scatter { proposal := some a.spool.next, acknowledge := true }
    | some err =>
      let a := { a with reqFragment := none, reqErr := some err }
      a.scatter { proposal := some a.spool.fragment, acknowledge := true }

/-- appender.onRecv, content branch (append_api.go): scatter the content
with ContentDelta = the request Fragment's current length, feed the
summer, and advance the request Fragment's End. -/
def Appender.onRecvContent (a : Appender) (c : List Nat) : Appender :=
  match a.reqFragment with
  | none => a
  | some f =>
    let a := a.scatter { content := some c, contentDelta := f.contentLength }
    { a with
        reqContent := a.reqContent ++ c
        reqFragment := some { f with end_ := f.end_ + c.length } }

/-- The serveAppend receive loop (append_api.go): each received message
is validated by onRecv (an invalid message ends input with its
validation error); after a content message the loop continues only while
the pipeline reports no send error; the end of input (io.EOF when
terminal = none, else the read error) takes the terminal branch. -/
def runRecv (v : Validators) (sendErr : Option String) (a : Appender) :
    List (List Nat) → Option String → Appender
  | [], terminal => a.onRecvTerminal terminal
  | c :: cs, terminal =>
    match appendRequestValidate v { journal := "", content := c } with
    | some err => a.onRecvTerminal (some err)
    | none =>
      let a := a.onRecvContent c
      if sendErr = none then runRecv v sendErr a cs terminal else a

/-- The error surfacing and response of serveAppend (append_api.go): the
client read error takes precedence, then the pipeline send error, then
the pipeline receive error; only with all three nil is the success
response sent. -/
def appendRpcResult (reqErr plnSendErr recvErr : Option String)
    (success : AppendResponse) : Except String AppendResponse :=
  match reqErr with
  | some e => .error e
  | none =>
    match plnSendErr with
    | some e => .error e
    | none =>
      match recvErr with
      | some e => .error e
      | none => .ok success

/-- One whole Append RPC served over an acquired pipeline (serveAppend):
the receive loop from the client followed by error surfacing; the
success response carries the pipeline Header and the appender's request
Fragment as Commit (and no Route). -/
def serveAppend (v : Validators) (hdr : PbHeader) (spool : Spool)
    (spec : JournalSpecFragment) (chunks : List (List Nat)) (terminal : Option String)
    (sendErr recvErr : Option String) : Appender × Except String AppendResponse :=
  let a := runRecv v sendErr (beginAppending spool spec) chunks terminal
  (a, appendRpcResult a.reqErr sendErr recvErr
    { header := some hdr, commit := a.reqFragment })

/-- The response Service.Append sends when resolution yields a non-OK
status (append_api.go): Status and Header only — no Route, no Commit. -/
def appendStatusResponse (status : Int) (hdr : PbHeader) : AppendResponse :=
  { status := status, header := some hdr }

/-- A sequence of Append RPCs of one journal served over a healthy
pipeline (no send or receive errors): each session is a list of content
chunks and a terminal event; the Spool threads from one session to the
next; each session's Commit Fragment (none on error) is collected. -/
def runAppends (v : Validators) (spec : JournalSpecFragment) (spool : Spool) :
    List (List (List Nat) × Option String) → List (Option Fragment) × Spool
  | [] => ([], spool)
  | (chunks, terminal) :: rest =>
    let a := runRecv v none (beginAppending spool spec) chunks terminal
    let (cs, s) := runAppends v spec a.spool rest
    (a.reqFragment :: cs, s)

/-- The error precedence the specification states for serveAppend,
written after the spec's words: the first of client read error, pipeline
send error, pipeline receive error is the RPC error; the success
response is returned only with all three nil. -/
def appendRpcResultSpec (reqErr plnSendErr recvErr : Option String)
    (success : AppendResponse) : Except String AppendResponse :=
  match reqErr, plnSendErr, recvErr with
  | some e, _, _ => .error e
  | none, some e, _ => .error e
  | none, none, some e => .error e
  | none, none, none => .ok success

/-! ## Theorems -/

set_option maxHeartbeats 1000000 in
/-- C9: ReplicateRequest.Validate accepts exactly the initial messages
carrying Journal, valid Route, matching valid Proposal, Acknowledge and
no Content/ContentDelta, and the subsequent messages that are either a
bare Proposal or Content with nonnegative ContentDelta and no
Acknowledge. -/
theorem replicateRequestValidate_characterization (v : Validators) (m : ReplicateRequest) :
    replicateRequestValidate v m = none ↔
      (replicateFirstOkSpec v m || replicateContOkSpec v m) = true := by
  obtain ⟨j, ro, pr, co, cd, ack⟩ := m
  simp only [replicateRequestValidate, replicateFirstOkSpec, replicateContOkSpec]
  by_cases hj : j = "" <;>
    cases ro <;> cases pr <;> cases co <;> cases ack <;>
      simp_all <;> split_ifs <;> simp_all

/-- C8 counterexample: ReadResponse.Validate accepts a metadata response
whose Offset is 0 while a Fragment (with Begin = 0) is present, so
Offset = 0 does not imply the absence of a Fragment. -/
theorem readResponse_offset_zero_with_fragment :
    readResponseValidate allOk
        ⟨statusOKCode, 0, 13, none, some ⟨"a/journal", 0, 13, [], 0, ""⟩, "", none⟩ = none ∧
      (⟨statusOKCode, 0, 13, none, some ⟨"a/journal", 0, 13, [], 0, ""⟩, "",
          none⟩ : ReadResponse).offset = 0 ∧
      (⟨statusOKCode, 0, 13, none, some ⟨"a/journal", 0, 13, [], 0, ""⟩, "",
          none⟩ : ReadResponse).fragment ≠ none := by
  refine ⟨by decide, by decide, by decide⟩

/-- C8 amended: an accepted metadata response with a Fragment satisfies
Begin ≤ Offset < End and WriteHead ≥ End; an accepted metadata response
without a Fragment has Offset 0 (the converse does not hold); an
accepted content-bearing response has Status OK and Offset, WriteHead,
Route, Fragment and FragmentUrl all unset. -/
theorem readResponseValidate_accepts_only (v : Validators) (m : ReadResponse)
    (h : readResponseValidate v m = none) :
    (m.content = none → ∀ f, m.fragment = some f →
      f.begin ≤ m.offset ∧ m.offset < f.end_ ∧ f.end_ ≤ m.writeHead) ∧
    (m.content = none → m.fragment = none → m.offset = 0 ∧ m.fragmentUrl = "") ∧
    (m.content ≠ none → m.status = statusOKCode ∧ m.offset = 0 ∧ m.writeHead = 0 ∧
      m.route = none ∧ m.fragment = none ∧ m.fragmentUrl = "") := by
  obtain ⟨st, off, wh, ro, fr, fu, co⟩ := m
  simp only [readResponseValidate, readResponseValidateTail] at h
  refine ⟨?_, ?_, ?_⟩
  · intro hco f hf
    subst hco hf
    cases ro <;> simp_all <;> split_ifs at h <;> simp_all
  · intro hco hf
    subst hco hf
    cases ro <;> simp_all <;> split_ifs at h <;> simp_all
  · intro hco
    cases co <;> simp_all <;> split_ifs at h <;> simp_all

/-- C8 witness: the amended theorem applied to a concrete accepted
metadata response carrying a Fragment. -/
theorem readResponseValidate_accepts_only_witness :
    ((0 : Int) ≤ 5 ∧ (5 : Int) < 13 ∧ (13 : Int) ≤ 20) ∧
      ((0 : Int) = 0 ∧ ("" : String) = "") := by
  have h1 := readResponseValidate_accepts_only allOk
    ⟨statusOKCode, 5, 20, none, some ⟨"a/journal", 0, 13, [], 0, ""⟩, "", none⟩ (by decide)
  have h2 := readResponseValidate_accepts_only allOk
    ⟨statusOKCode, 0, 0, none, none, "", none⟩ (by decide)
  exact ⟨h1.1 rfl ⟨"a/journal", 0, 13, [], 0, ""⟩ rfl, h2.2.1 rfl rfl⟩

/-- C2: contrary to the stated invariant (and to the requirements of
AppendResponse.Validate), the broker's own Append responses never set
Route, and the non-OK status response also lacks a Commit: both the
status response and a concrete successful serveAppend response have
Route = nil and fail AppendResponse.Validate with "expected Route". -/
theorem appendResponse_missing_route :
    (appendStatusResponse 3 ⟨7⟩).route = none ∧
      (appendStatusResponse 3 ⟨7⟩).commit = none ∧
      appendResponseValidate allOk (appendStatusResponse 3 ⟨7⟩) = some "expected Route" ∧
      (serveAppend allOk ⟨7⟩ ⟨⟨"j", 0, 0, [], 1, ""⟩, []⟩ ⟨1024, 1, []⟩
          [[102, 111, 111]] none none none).2 =
        .ok { header := some ⟨7⟩, commit := some ⟨"j", 0, 3, [102, 111, 111], 0, ""⟩ } ∧
      ({ header := some ⟨7⟩,
         commit := some ⟨"j", 0, 3, [102, 111, 111], 0, ""⟩ } : AppendResponse).route = none ∧
      appendResponseValidate allOk
          { header := some ⟨7⟩, commit := some ⟨"j", 0, 3, [102, 111, 111], 0, ""⟩ } =
        some "expected Route" := by
  refine ⟨by decide, by decide, by decide, by rfl, by decide, by decide⟩

/-- C4: serveAppend surfaces the client read error first, then the
pipeline send error, then the pipeline receive error, and sends the
success response exactly when all three are nil. -/
theorem appendRpcResult_precedence (reqErr plnSendErr recvErr : Option String)
    (success : AppendResponse) :
    appendRpcResult reqErr plnSendErr recvErr success =
        appendRpcResultSpec reqErr plnSendErr recvErr success ∧
      (appendRpcResult reqErr plnSendErr recvErr success = .ok success ↔
        reqErr = none ∧ plnSendErr = none ∧ recvErr = none) := by
  cases reqErr <;> cases plnSendErr <;> cases recvErr <;>
    simp [appendRpcResult, appendRpcResultSpec]

/-- C10: batchedTxn.Commit panics exactly when compares or ops queued
since the last Checkpoint are still pending; Checkpoint always leaves
nothing pending; and with nothing pending Commit never panics — it
issues the accumulated compares and ops as one transaction, which either
commits (clearing them) or is reported as an error. -/
theorem batchedTxn_commit_sealed (txnOk : Txn → Bool) (b : BatchedTxn) :
    ((BatchedTxn.Commit txnOk b).1 = .panicked ↔ b.nextCmps ≠ [] ∨ b.nextOps ≠ []) ∧
    ((BatchedTxn.Checkpoint txnOk b).txn.nextCmps = [] ∧
      (BatchedTxn.Checkpoint txnOk b).txn.nextOps = []) ∧
    (b.nextCmps = [] → b.nextOps = [] →
      BatchedTxn.Commit txnOk b =
        (if txnOk ⟨b.cmps, b.ops⟩ then
          (.committed ⟨b.cmps, b.ops⟩, { b with cmps := [], ops := [] })
        else (.failed ⟨b.cmps, b.ops⟩, b))) := by
  refine ⟨?_, ?_, ?_⟩
  · unfold BatchedTxn.Commit
    split_ifs with h1 <;> simp_all <;> split <;> simp
  · unfold BatchedTxn.Checkpoint BatchedTxn.Commit
    split_ifs <;> (try simp_all) <;> split_ifs <;> simp_all
  · intro h1 h2
    unfold BatchedTxn.Commit
    simp [h1, h2]

/-- C10 witness: a sealed batch (everything checkpointed) commits its
accumulated compares and ops in one transaction without panicking, and
an unsealed batch panics. -/
theorem batchedTxn_commit_sealed_witness :
    (BatchedTxn.Commit txnAlwaysOk
        ⟨[Cmp.createRevEq (ItemKey "a") 0], [Op.del (ItemKey "a")], [], [], []⟩ =
      (.committed ⟨[Cmp.createRevEq (ItemKey "a") 0], [Op.del (ItemKey "a")]⟩,
        ⟨[], [], [], [], []⟩)) ∧
    (BatchedTxn.Commit txnAlwaysOk
        ⟨[], [], [Cmp.createRevEq (ItemKey "a") 0], [], []⟩).1 = .panicked := by
  constructor
  · have h := (batchedTxn_commit_sealed txnAlwaysOk
      ⟨[Cmp.createRevEq (ItemKey "a") 0], [Op.del (ItemKey "a")], [], [], []⟩).2.2 rfl rfl
    simpa [txnAlwaysOk] using h
  · exact (batchedTxn_commit_sealed txnAlwaysOk
      ⟨[], [], [Cmp.createRevEq (ItemKey "a") 0], [], []⟩).1.mpr (by simp)

/-- The batching invariant of a converger session under a store that
accepts every transaction: folding checkpoint groups through runGroup
never errors, leaves nothing pending, and the issued Txns followed by
the still-accumulated batch are exactly the batches the specification
describes. -/
theorem runGroup_foldl_trace (fixed : List Cmp) :
    ∀ (groups : List Checkpoint) (b : BatchedTxn) (trace : List Txn) (accC : List Cmp),
      b.fixedCmps = fixed → b.nextCmps = [] → b.nextOps = [] →
      (if b.cmps = [] then fixed else b.cmps) = accC →
      (groups = [] → b.cmps = accC) →
      (groups.foldl (runGroup txnAlwaysOk) ⟨b, trace, false⟩).errored = false ∧
      (groups.foldl (runGroup txnAlwaysOk) ⟨b, trace, false⟩).txn.nextCmps = [] ∧
      (groups.foldl (runGroup txnAlwaysOk) ⟨b, trace, false⟩).txn.nextOps = [] ∧
      (groups.foldl (runGroup txnAlwaysOk) ⟨b, trace, false⟩).trace ++
          [⟨(groups.foldl (runGroup txnAlwaysOk) ⟨b, trace, false⟩).txn.cmps,
            (groups.foldl (runGroup txnAlwaysOk) ⟨b, trace, false⟩).txn.ops⟩] =
        trace ++ specBatchesAux fixed accC b.ops groups := by
  intro groups
  induction groups with
  | nil =>
    intro b trace accC hfix hnc hno hacc hnil
    simp [specBatchesAux, hnil rfl, hnc, hno]
  | cons g gs ih =>
    intro b trace accC hfix hnc hno hacc _
    have hseed : (if b.cmps = [] then { b with cmps := b.cmps ++ b.fixedCmps } else b).cmps
        = accC := by
      split_ifs with h <;> simp_all
    by_cases hcap : accC.length + g.cmps.length > maxTxnOps ∨
        b.ops.length + g.ops.length > maxTxnOps
    · -- flush before appending this checkpoint
      have hstep : runGroup txnAlwaysOk ⟨b, trace, false⟩ g =
          ⟨⟨fixed ++ g.cmps, g.ops, [], [], fixed⟩, trace ++ [⟨accC, b.ops⟩], false⟩ := by
        simp only [runGroup, BatchedTxn.If, BatchedTxn.Then, BatchedTxn.Checkpoint,
          BatchedTxn.Commit, txnAlwaysOk]
        split_ifs <;> simp_all <;> omega
      rw [List.foldl_cons, hstep]
      have := ih ⟨fixed ++ g.cmps, g.ops, [], [], fixed⟩ (trace ++ [⟨accC, b.ops⟩])
        (fixed ++ g.cmps) rfl rfl rfl (by split_ifs with h <;> simp_all) (fun _ => rfl)
      refine ⟨this.1, this.2.1, this.2.2.1, ?_⟩
      rw [this.2.2.2]
      simp only [specBatchesAux]
      rw [if_pos hcap]
      simp
    · -- append this checkpoint to the accumulating batch
      have hstep : runGroup txnAlwaysOk ⟨b, trace, false⟩ g =
          ⟨⟨accC ++ g.cmps, b.ops ++ g.ops, [], [], fixed⟩, trace, false⟩ := by
        simp only [runGroup, BatchedTxn.If, BatchedTxn.Then, BatchedTxn.Checkpoint,
          BatchedTxn.Commit, txnAlwaysOk]
        split_ifs <;> simp_all <;> omega
      rw [List.foldl_cons, hstep]
      have hacc2 : (if accC ++ g.cmps = [] then fixed else accC ++ g.cmps) = accC ++ g.cmps := by
        split_ifs with h
        · have h1 : accC = [] := (List.append_eq_nil.mp h).1
          subst h1
          rw [h]
          by_cases hb : b.cmps = []
          · rw [if_pos hb] at hacc
            exact hacc
          · rw [if_neg hb] at hacc
            exact absurd hacc hb
        · rfl
      have := ih ⟨accC ++ g.cmps, b.ops ++ g.ops, [], [], fixed⟩ trace
        (accC ++ g.cmps) rfl rfl rfl hacc2 (fun _ => rfl)
      refine ⟨this.1, this.2.1, this.2.2.1, ?_⟩
      rw [this.2.2.2]
      simp only [specBatchesAux]
      rw [if_neg hcap]

/-- Every batch the specification's batching emits starts with the fixed
compares, provided the current accumulator does. -/
theorem specBatchesAux_fence (fixed : List Cmp) :
    ∀ (groups : List Checkpoint) (accC : List Cmp) (accO : List Op),
      fixed.isPrefixOf accC = true →
      (specBatchesAux fixed accC accO groups).all (fun t => fixed.isPrefixOf t.cmps) = true := by
  intro groups
  induction groups with
  | nil =>
    intro accC accO h
    simp [specBatchesAux, h]
  | cons g gs ih =>
    intro accC accO h
    simp only [specBatchesAux]
    split_ifs with hcap
    · simp only [List.all_cons, Bool.and_eq_true]
      exact ⟨h, ih (fixed ++ g.cmps) g.ops
        (List.isPrefixOf_iff_prefix.mpr (List.prefix_append fixed g.cmps))⟩
    · exact ih (accC ++ g.cmps) (accO ++ g.ops)
        (List.isPrefixOf_iff_prefix.mpr
          ((List.isPrefixOf_iff_prefix.mp h).trans (List.prefix_append accC g.cmps)))

/-- C5 amended: against a store accepting every transaction, a converger
session (checkpoint groups then Commit) issues exactly the underlying
transactions the specification's batching describes — each checkpoint's
compares and ops land together in a single transaction, a flush happens
at a Checkpoint exactly when accumulated compares or ops would exceed
maxTxnOps, and once at least one Checkpoint has been made every issued
transaction starts with the fixed compares. A session with no
checkpoints issues one empty, unfenced transaction (see the
counterexample). -/
theorem batchedTxn_checkpoint_batching (fixed : List Cmp) (groups : List Checkpoint) :
    (runSession txnAlwaysOk fixed groups).1.trace = specBatches fixed groups ∧
    (groups.isEmpty ||
      (runSession txnAlwaysOk fixed groups).1.trace.all
        (fun t => fixed.isPrefixOf t.cmps)) = true := by
  match groups with
  | [] =>
    constructor
    · simp [runSession, newBatchedTxn, BatchedTxn.Commit, txnAlwaysOk, specBatches]
    · simp
  | g :: gs =>
    have hinv := runGroup_foldl_trace fixed (g :: gs) (newBatchedTxn fixed) [] fixed
      rfl rfl rfl (by simp [newBatchedTxn]) (by intro h; exact absurd h (by simp))
    obtain ⟨herr, hnc, hno, htrace⟩ := hinv
    have hrun : (runSession txnAlwaysOk fixed (g :: gs)).1.trace =
        ((g :: gs).foldl (runGroup txnAlwaysOk) ⟨newBatchedTxn fixed, [], false⟩).trace ++
          [⟨((g :: gs).foldl (runGroup txnAlwaysOk) ⟨newBatchedTxn fixed, [], false⟩).txn.cmps,
            ((g :: gs).foldl (runGroup txnAlwaysOk) ⟨newBatchedTxn fixed, [], false⟩).txn.ops⟩] := by
      simp only [runSession]
      rw [if_neg (by rw [herr]; simp)]
      simp only [BatchedTxn.Commit, txnAlwaysOk]
      rw [if_neg (by rw [hnc, hno]; simp)]
      simp
    have heq : (runSession txnAlwaysOk fixed (g :: gs)).1.trace =
        specBatches fixed (g :: gs) := by
      rw [hrun, htrace]
      simp [specBatches, newBatchedTxn]
    refine ⟨heq, ?_⟩
    rw [heq]
    simp only [List.isEmpty_cons, Bool.false_or]
    show (specBatches fixed (g :: gs)).all (fun t => fixed.isPrefixOf t.cmps) = true
    simp only [specBatches]
    exact specBatchesAux_fence fixed (g :: gs) fixed []
      (List.isPrefixOf_iff_prefix.mpr (List.prefix_refl fixed))

/-- C5 counterexample: with a fixed leader-fence compare given at
construction, a session that calls Commit without any Checkpoint issues
one underlying (empty) transaction that does not include the fixed
compare — so not every underlying transaction carries the fence. -/
theorem batchedTxn_empty_commit_unfenced :
    (runSession txnAlwaysOk [Cmp.createRevEq (ItemKey "leader") 9] []).1.trace =
        [⟨[], []⟩] ∧
      ((runSession txnAlwaysOk [Cmp.createRevEq (ItemKey "leader") 9] []).1.trace.all
        (fun t => [Cmp.createRevEq (ItemKey "leader") 9].isPrefixOf t.cmps)) = false := by
  refine ⟨by decide, by decide⟩

/-- The decoded ItemID of an Assignment is a function of its key alone. -/
theorem assignmentItemID_of_key (kv1 kv2 : KeyValue) (h : kv1.key = kv2.key) :
    assignmentItemID kv1 = assignmentItemID kv2 := by
  unfold assignmentItemID
  rw [h]

/-- Soundness of the dead-assignment pass: every deletion op emitted by
removeDeadAssignments belongs to a checkpoint that also asserts the
respective Item's CreateRevision = 0 and the deleted Assignment's own
unchanged ModRevision. -/
theorem removeDeadAssignments_sound :
    ∀ (asn : List KeyValue) (cp : Checkpoint), cp ∈ removeDeadAssignments asn →
      ∀ k, Op.del k ∈ cp.ops →
        ∃ kv, kv ∈ asn ∧ kv.key = k ∧
          Cmp.createRevEq (ItemKey (assignmentItemID kv)) 0 ∈ cp.cmps ∧
          Cmp.modRevEq kv.key kv.modRevision ∈ cp.cmps := by
  intro asn
  induction asn using removeDeadAssignments.induct with
  | case1 => intro cp h; simp [removeDeadAssignments] at h
  | case2 a rest itemID rest' ih =>
    intro cp hcp k hk
    rw [removeDeadAssignments] at hcp
    simp only [List.mem_cons] at hcp
    rcases hcp with hcp | hcp
    · subst hcp
      simp only [List.mem_map] at hk
      obtain ⟨kv, hkv, hdel⟩ := hk
      have hkeq : kv.key = k := by
        cases hdel
        rfl
      refine ⟨kv, ?_, hkeq, ?_, ?_⟩
      · rcases List.mem_cons.mp hkv with h1 | h1
        · exact h1 ▸ List.mem_cons_self a rest
        · exact List.mem_cons_of_mem a ((List.takeWhile_prefix _).sublist.mem h1)
      · have hid : assignmentItemID kv = itemID := by
          rcases List.mem_cons.mp hkv with h1 | h1
          · rw [h1]
          · have h2 := List.mem_takeWhile_imp h1
            simpa using h2
        rw [hid]
        exact List.mem_cons_self _ _
      · exact List.mem_cons_of_mem _
          (List.mem_map.mpr ⟨kv, hkv, rfl⟩)
    · obtain ⟨kv, hkv, hrest⟩ := ih cp hcp k hk
      exact ⟨kv, List.mem_cons_of_mem a ((List.dropWhile_suffix _).sublist.mem hkv),
        hrest⟩

/-- C6: in the convergence dead-assignment pass, an Assignment is
deleted only inside a checkpoint that asserts both that its Item's key
has CreateRevision 0 (the Item does not exist) and that the Assignment's
own ModRevision is unchanged; and an Assignment whose Item exists is
never deleted by this pass. -/
theorem convergeDeadPass_guarded (itemIDs : List String) (assignments : List KeyValue) :
    (∀ cp, cp ∈ convergeDeadPass itemIDs assignments →
      ∀ iid zone sfx slot, Op.del (EtcdKey.assign iid zone sfx slot) ∈ cp.ops →
        Cmp.createRevEq (ItemKey iid) 0 ∈ cp.cmps ∧
        ∃ kv, kv ∈ assignments ∧ kv.key = EtcdKey.assign iid zone sfx slot ∧
          itemIDs.contains iid = false ∧
          Cmp.modRevEq kv.key kv.modRevision ∈ cp.cmps) ∧
    (∀ kv, kv ∈ assignments → itemIDs.contains (assignmentItemID kv) = true →
      ∀ cp, cp ∈ convergeDeadPass itemIDs assignments → Op.del kv.key ∉ cp.ops) := by
  constructor
  · intro cp hcp iid zone sfx slot hdel
    obtain ⟨kv, hmem, hkey, hcre, hmod⟩ :=
      removeDeadAssignments_sound _ cp hcp _ hdel
    have hin := List.mem_filter.mp hmem
    have hid : assignmentItemID kv = iid := by
      rw [show assignmentItemID kv = iid from by unfold assignmentItemID; rw [hkey]]
    constructor
    · rw [hid] at hcre
      exact hcre
    · refine ⟨kv, hin.1, hkey, ?_, hmod⟩
      have := hin.2
      rw [hid] at this
      simpa using this
  · intro kv hkv hcont cp hcp hdel
    obtain ⟨kv2, hmem2, hkey2, _, _⟩ :=
      removeDeadAssignments_sound _ cp hcp _ hdel
    have hin2 := List.mem_filter.mp hmem2
    have : assignmentItemID kv2 = assignmentItemID kv :=
      assignmentItemID_of_key kv2 kv hkey2
    rw [this] at hin2
    rw [hcont] at hin2
    simpa using hin2.2

/-- C6 witness: on a concrete keyspace with one dead Assignment (Item
"dead" absent) and one live Assignment (Item "live" present), the dead
Assignment's delete op sits in a checkpoint guarded by the Item's
CreateRevision = 0 and the Assignment's ModRevision, and the live
Assignment is not deleted. -/
theorem convergeDeadPass_guarded_witness :
    (Cmp.createRevEq (ItemKey "dead") 0 ∈
        (Checkpoint.mk
          [Cmp.createRevEq (EtcdKey.item "dead") 0,
            Cmp.modRevEq (EtcdKey.assign "dead" "z" "m" 0) 5]
          [Op.del (EtcdKey.assign "dead" "z" "m" 0)]).cmps ∧
      ∃ kv, kv ∈ [(⟨.assign "dead" "z" "m" 0, 1, 5⟩ : KeyValue),
            ⟨.assign "live" "z" "m" 0, 1, 6⟩] ∧
          kv.key = EtcdKey.assign "dead" "z" "m" 0 ∧
          (["live"].contains "dead") = false ∧
          Cmp.modRevEq kv.key kv.modRevision ∈
            (Checkpoint.mk
              [Cmp.createRevEq (EtcdKey.item "dead") 0,
                Cmp.modRevEq (EtcdKey.assign "dead" "z" "m" 0) 5]
              [Op.del (EtcdKey.assign "dead" "z" "m" 0)]).cmps) ∧
    Op.del (EtcdKey.assign "live" "z" "m" 0) ∉
      (Checkpoint.mk
        [Cmp.createRevEq (EtcdKey.item "dead") 0,
          Cmp.modRevEq (EtcdKey.assign "dead" "z" "m" 0) 5]
        [Op.del (EtcdKey.assign "dead" "z" "m" 0)]).ops := by
  have h := convergeDeadPass_guarded ["live"]
    [⟨.assign "dead" "z" "m" 0, 1, 5⟩, ⟨.assign "live" "z" "m" 0, 1, 6⟩]
  have hmem : (Checkpoint.mk
      [Cmp.createRevEq (EtcdKey.item "dead") 0,
        Cmp.modRevEq (EtcdKey.assign "dead" "z" "m" 0) 5]
      [Op.del (EtcdKey.assign "dead" "z" "m" 0)]) ∈
      convergeDeadPass ["live"]
        [⟨.assign "dead" "z" "m" 0, 1, 5⟩, ⟨.assign "live" "z" "m" 0, 1, 6⟩] := by
    rw [convergeDeadPass]
    rw [removeDeadAssignments.eq_def]
    simp only [List.filter]
    simp [removeDeadAssignments.eq_def, modRevisionUnchanged, assignmentItemID, ItemKey]
  refine ⟨h.1 _ hmem "dead" "z" "m" 0 (by decide), ?_⟩
  exact h.2 ⟨.assign "live" "z" "m" 0, 1, 6⟩ (by decide) (by decide) _ hmem

/-- A successful patch never changes an already-observed ClusterID. -/
theorem patchHeader_clusterId (h u : EtcdHdr) (e : Bool) (h' : EtcdHdr)
    (hok : patchHeader h u e = .ok h') (hc : h.clusterId ≠ 0) :
    h'.clusterId = h.clusterId := by
  unfold patchHeader at hok
  split_ifs at hok with h1 h2 h3 <;> simp_all

/-- A successful non-strict patch strictly advances an initialized
Revision. -/
theorem patchHeader_revision (h u : EtcdHdr) (h' : EtcdHdr)
    (hok : patchHeader h u false = .ok h') (hr : h.revision ≠ 0) :
    h.revision < h'.revision := by
  unfold patchHeader at hok
  split_ifs at hok with h1 h2 h3 <;> simp_all

/-- Applying watch responses never changes an observed ClusterID. -/
theorem ksApply_clusterId :
    ∀ (resps : List WatchResponse) (ks ks' : KeySpace),
      ksApply ks resps = .ok ks' → ks.header.clusterId ≠ 0 →
      ks'.header.clusterId = ks.header.clusterId := by
  intro resps
  induction resps with
  | nil => intro ks ks' hok hc; simp [ksApply] at hok; rw [← hok]
  | cons r rest ih =>
    intro ks ks' hok hc
    rw [ksApply] at hok
    rcases hp : patchHeader ks.header r.header false with e | h2
    · rw [hp] at hok; exact absurd hok (by simp)
    · rw [hp] at hok
      have hcid := patchHeader_clusterId ks.header r.header false h2 hp hc
      have := ih ⟨h2, r.events.foldl applyEvent ks.keyValues⟩ ks' hok (by simp [hcid, hc])
      simp at this
      rw [this, hcid]

/-- Applying a non-empty batch of watch responses strictly advances an
initialized Revision. -/
theorem ksApply_revision :
    ∀ (resps : List WatchResponse) (ks ks' : KeySpace),
      ksApply ks resps = .ok ks' → 0 < ks.header.revision → resps ≠ [] →
      ks.header.revision < ks'.header.revision := by
  intro resps
  induction resps with
  | nil => intro ks ks' _ _ hne; exact absurd rfl hne
  | cons r rest ih =>
    intro ks ks' hok hr _
    rw [ksApply] at hok
    rcases hp : patchHeader ks.header r.header false with e | h2
    · rw [hp] at hok; exact absurd hok (by simp)
    · rw [hp] at hok
      have hrev := patchHeader_revision ks.header r.header h2 hp (by omega)
      rcases rest with _ | ⟨r2, rest2⟩
      · simp [ksApply] at hok
        rw [← hok]
        exact hrev
      · have := ih ⟨h2, r.events.foldl applyEvent ks.keyValues⟩ ks' hok (by simp; omega)
          (by simp)
        simp at this
        omega

/-- C7: over any sequence of watch-response batches applied to a
KeySpace, the observed ClusterID never changes and the observed Revision
strictly increases with every successful non-empty apply; an apply whose
first header carries a different ClusterID, or a non-increasing
Revision, fails with an error. -/
theorem ksApply_header_discipline (ks : KeySpace) (resps : List WatchResponse)
    (ks' : KeySpace) :
    (ksApply ks resps = .ok ks' → ks.header.clusterId ≠ 0 →
      ks'.header.clusterId = ks.header.clusterId) ∧
    (ksApply ks resps = .ok ks' → 0 < ks.header.revision → resps ≠ [] →
      ks.header.revision < ks'.header.revision) ∧
    (∀ r rest, resps = r :: rest → ks.header.clusterId ≠ 0 →
      r.header.clusterId ≠ ks.header.clusterId →
      ksApply ks resps = .error "etcd ClusterID mismatch") ∧
    (∀ r rest, resps = r :: rest →
      (ks.header.clusterId = 0 ∨ r.header.clusterId = ks.header.clusterId) →
      ks.header.revision ≠ 0 → r.header.revision ≤ ks.header.revision →
      ksApply ks resps = .error "etcd Revision mismatch, expected greater") := by
  refine ⟨fun hok => ksApply_clusterId resps ks ks' hok,
    fun hok hr hne => ksApply_revision resps ks ks' hok hr hne, ?_, ?_⟩
  · intro r rest hre hc hneq
    subst hre
    rw [ksApply]
    have : patchHeader ks.header r.header false = .error "etcd ClusterID mismatch" := by
      unfold patchHeader
      rw [if_pos ⟨hc, hneq⟩]
    rw [this]
  · intro r rest hre hcid hr hle
    subst hre
    rw [ksApply]
    have : patchHeader ks.header r.header false =
        .error "etcd Revision mismatch, expected greater" := by
      unfold patchHeader
      rw [if_neg (by rcases hcid with h | h <;> simp [h])]
      rw [if_neg (by simp)]
      rw [if_pos ⟨hr, by simp, hle⟩]
    rw [this]

/-- C7 witness: the theorem applied to the concrete scenario of the
repository's keyspace tests — successive applies at revisions 10 and 11
with ClusterID 9999 advance the header, a ClusterID change to 10000 is
rejected, and a stale revision 11 is rejected. -/
theorem ksApply_header_discipline_witness :
    ((9999 : Int) = 9999) ∧ ((10 : Int) < 11) ∧
      (ksApply ⟨⟨9999, 0, 11, 0⟩, []⟩ [⟨⟨10000, 0, 12, 0⟩, []⟩] =
        .error "etcd ClusterID mismatch") ∧
      (ksApply ⟨⟨9999, 0, 11, 0⟩, []⟩ [⟨⟨9999, 0, 11, 0⟩, [⟨false, "/not/here", ""⟩]⟩] =
        .error "etcd Revision mismatch, expected greater") := by
  have h1 := (ksApply_header_discipline ⟨⟨9999, 0, 10, 0⟩, []⟩
      [⟨⟨9999, 0, 11, 0⟩, []⟩] ⟨⟨9999, 0, 11, 0⟩, []⟩).1 (by rfl) (by decide)
  have h2 := (ksApply_header_discipline ⟨⟨9999, 0, 10, 0⟩, []⟩
      [⟨⟨9999, 0, 11, 0⟩, []⟩] ⟨⟨9999, 0, 11, 0⟩, []⟩).2.1 (by rfl) (by decide) (by decide)
  have h3 := (ksApply_header_discipline ⟨⟨9999, 0, 11, 0⟩, []⟩
      [⟨⟨10000, 0, 12, 0⟩, []⟩] ⟨⟨9999, 0, 11, 0⟩, []⟩).2.2.1 _ _ rfl (by decide) (by decide)
  have h4 := (ksApply_header_discipline ⟨⟨9999, 0, 11, 0⟩, []⟩
      [⟨⟨9999, 0, 11, 0⟩, [⟨false, "/not/here", ""⟩]⟩] ⟨⟨9999, 0, 11, 0⟩, []⟩).2.2.2 _ _ rfl
        (Or.inr (by decide)) (by decide) (by decide)
  exact ⟨h1, by simpa using h2, h3, h4⟩

/-- A clean-EOF appender session: receiving nonempty content chunks and
then EOF seals the request Fragment over exactly the received bytes,
commits the Spool at Spool.Next(), and scatters exactly one acknowledged
request — the final one, carrying Spool.Next() as Proposal. -/
theorem runRecv_eof (v : Validators) :
    ∀ (chunks : List (List Nat)) (a : Appender) (f : Fragment),
      a.reqFragment = some f → a.reqErr = none →
      chunks.all (fun c => c.length ≠ 0) = true →
      (runRecv v none a chunks none).reqFragment =
          some { f with end_ := f.end_ + (chunks.join.length : Int),
                        sum := sha1sum (a.reqContent ++ chunks.join) } ∧
      (runRecv v none a chunks none).reqErr = none ∧
      (runRecv v none a chunks none).spool =
          ⟨Spool.next ⟨a.spool.fragment, a.spool.content ++ chunks.join⟩, []⟩ ∧
      (runRecv v none a chunks none).scattered.filter (fun r => r.acknowledge) =
          a.scattered.filter (fun r => r.acknowledge) ++
            [{ proposal := some (Spool.next ⟨a.spool.fragment, a.spool.content ++ chunks.join⟩),
               acknowledge := true }] ∧
      (runRecv v none a chunks none).scattered.getLast? =
          some { proposal :=
                   some (Spool.next ⟨a.spool.fragment, a.spool.content ++ chunks.join⟩),
                 acknowledge := true } := by
  intro chunks
  induction chunks with
  | nil =>
    intro a f hf he _
    simp only [runRecv, Appender.onRecvTerminal, hf]
    simp [Appender.scatter, Spool.applyProposal, List.filter_append, he]
  | cons c cs ih =>
    intro a f hf he hall
    simp only [List.all_cons, Bool.and_eq_true] at hall
    have hval : appendRequestValidate v { journal := "", content := c } = none := by
      simp only [appendRequestValidate]
      have : c.length ≠ 0 := by simpa using hall.1
      simp [this]
    have hrec : runRecv v none a (c :: cs) none =
        runRecv v none (a.onRecvContent c) cs none := by
      simp only [runRecv, hval]
      simp
    have ha' : (a.onRecvContent c).reqFragment =
        some { f with end_ := f.end_ + (c.length : Int) } := by
      simp [Appender.onRecvContent, hf, Appender.scatter]
    have ha'e : (a.onRecvContent c).reqErr = none := by
      simp [Appender.onRecvContent, hf, Appender.scatter, he]
    have := ih (a.onRecvContent c) { f with end_ := f.end_ + (c.length : Int) } ha' ha'e hall.2
    rw [hrec]
    have hsp : (a.onRecvContent c).spool =
        ⟨a.spool.fragment, a.spool.content ++ c⟩ := by
      simp [Appender.onRecvContent, hf, Appender.scatter]
    have hrc : (a.onRecvContent c).reqContent = a.reqContent ++ c := by
      simp [Appender.onRecvContent, hf, Appender.scatter]
    have hsc : (a.onRecvContent c).scattered.filter (fun r => r.acknowledge) =
        a.scattered.filter (fun r => r.acknowledge) := by
      simp [Appender.onRecvContent, hf, Appender.scatter, List.filter_append]
    have hscl : ∀ (r : ReplicateRequest), (a.onRecvContent c).scattered.getLast? = some r →
        True := fun _ _ => trivial
    rw [hsp, hrc, hsc] at this
    refine ⟨?_, this.2.1, ?_, ?_, ?_⟩
    · rw [this.1]
      have hlen : ((c ++ cs.join).length : Int) = (c.length : Int) + cs.join.length := by
        push_cast [List.length_append]
        ring
      simp [List.join, List.append_assoc, hlen, add_assoc]
    · rw [this.2.2.1]
      simp [List.join, List.append_assoc]
    · rw [this.2.2.2.1]
      simp [List.join, List.append_assoc]
    · rw [this.2.2.2.2]
      simp [List.join, List.append_assoc]

/-- An errored appender session: after nonempty content chunks, a
non-EOF read error makes the appender record the error, drop the request
Fragment, and scatter — as the only acknowledged request — a rollback
Proposal equal to the committed Spool Fragment (no content advance). -/
theorem runRecv_err (v : Validators) :
    ∀ (chunks : List (List Nat)) (a : Appender) (f : Fragment) (e : String),
      a.reqFragment = some f → a.reqErr = none →
      chunks.all (fun c => c.length ≠ 0) = true →
      (runRecv v none a chunks (some e)).reqFragment = none ∧
      (runRecv v none a chunks (some e)).reqErr = some e ∧
      (runRecv v none a chunks (some e)).spool = ⟨a.spool.fragment, []⟩ ∧
      (runRecv v none a chunks (some e)).scattered.filter (fun r => r.acknowledge) =
          a.scattered.filter (fun r => r.acknowledge) ++
            [{ proposal := some a.spool.fragment, acknowledge := true }] ∧
      (runRecv v none a chunks (some e)).scattered.getLast? =
          some { proposal := some a.spool.fragment, acknowledge := true } := by
  intro chunks
  induction chunks with
  | nil =>
    intro a f e hf he _
    simp only [runRecv, Appender.onRecvTerminal, hf]
    simp [Appender.scatter, Spool.applyProposal, List.filter_append, he]
  | cons c cs ih =>
    intro a f e hf he hall
    simp only [List.all_cons, Bool.and_eq_true] at hall
    have hval : appendRequestValidate v { journal := "", content := c } = none := by
      simp only [appendRequestValidate]
      have : c.length ≠ 0 := by simpa using hall.1
      simp [this]
    have hrec : runRecv v none a (c :: cs) (some e) =
        runRecv v none (a.onRecvContent c) cs (some e) := by
      simp only [runRecv, hval]
      simp
    have ha' : (a.onRecvContent c).reqFragment =
        some { f with end_ := f.end_ + (c.length : Int) } := by
      simp [Appender.onRecvContent, hf, Appender.scatter]
    have ha'e : (a.onRecvContent c).reqErr = none := by
      simp [Appender.onRecvContent, hf, Appender.scatter, he]
    have := ih (a.onRecvContent c) { f with end_ := f.end_ + (c.length : Int) } e ha' ha'e hall.2
    rw [hrec]
    have hsp : (a.onRecvContent c).spool =
        ⟨a.spool.fragment, a.spool.content ++ c⟩ := by
      simp [Appender.onRecvContent, hf, Appender.scatter]
    have hsc : (a.onRecvContent c).scattered.filter (fun r => r.acknowledge) =
        a.scattered.filter (fun r => r.acknowledge) := by
      simp [Appender.onRecvContent, hf, Appender.scatter, List.filter_append]
    rw [hsp, hsc] at this
    exact this

/-- Rolling a Fragment forward never moves its End or Journal. -/
theorem updateProposal_preserves (cur : Fragment) (spec : JournalSpecFragment) :
    (updateProposal cur spec).1.end_ = cur.end_ ∧
      (updateProposal cur spec).1.journal = cur.journal := by
  unfold updateProposal
  split_ifs <;> simp

/-- What beginAppending establishes: a fresh request Fragment at
Begin = End = the Spool's current End, an empty summer, no error, no
acknowledged scatter, and a Spool whose committed End and Journal are
unchanged (with empty buffered content if it was empty before). -/
theorem beginAppending_facts (spool : Spool) (spec : JournalSpecFragment) :
    (beginAppending spool spec).reqFragment =
        some ⟨spool.fragment.journal, spool.fragment.end_, spool.fragment.end_, [], 0, ""⟩ ∧
      (beginAppending spool spec).reqErr = none ∧
      (beginAppending spool spec).reqContent = [] ∧
      (beginAppending spool spec).spool.fragment.end_ = spool.fragment.end_ ∧
      (beginAppending spool spec).spool.fragment.journal = spool.fragment.journal ∧
      (spool.content = [] → (beginAppending spool spec).spool.content = []) ∧
      (beginAppending spool spec).scattered.filter (fun r => r.acknowledge) = [] := by
  have hp := updateProposal_preserves spool.fragment spec
  unfold beginAppending
  rcases hu : updateProposal spool.fragment spec with ⟨proposal, update⟩
  rw [hu] at hp
  simp only at hp
  cases update <;>
    simp [Appender.scatter, Spool.applyProposal, hp.1, hp.2]

/-- C1: for an Append stream served over a pipeline, if the client
stream ends with a clean EOF (and the pipeline reports no errors) the
appender scatters exactly one acknowledged ReplicateRequest — the final
one, whose Proposal is Spool.Next() over the received bytes — and the
RPC succeeds carrying the committed request Fragment; if the client
stream ends with a non-EOF read error, the appender scatters as its only
acknowledged request a rollback Proposal equal to the committed Spool
Fragment (no content advance), records the error, and the RPC returns
that error with no commit Fragment. -/
theorem appender_commit_and_rollback (v : Validators) (hdr : PbHeader) (spool : Spool)
    (spec : JournalSpecFragment) (chunks : List (List Nat))
    (hc : spool.content = [])
    (hall : chunks.all (fun c => c.length ≠ 0) = true) :
    ((serveAppend v hdr spool spec chunks none none none).1.scattered.filter
          (fun r => r.acknowledge) =
        [{ proposal := some (Spool.next ⟨(beginAppending spool spec).spool.fragment,
             chunks.join⟩), acknowledge := true }] ∧
      (serveAppend v hdr spool spec chunks none none none).1.scattered.getLast? =
        some { proposal := some (Spool.next ⟨(beginAppending spool spec).spool.fragment,
            chunks.join⟩), acknowledge := true } ∧
      (Spool.next ⟨(beginAppending spool spec).spool.fragment, chunks.join⟩).begin =
        spool.fragment.end_ ∧
      (Spool.next ⟨(beginAppending spool spec).spool.fragment, chunks.join⟩).end_ =
        spool.fragment.end_ + (chunks.join.length : Int) ∧
      (Spool.next ⟨(beginAppending spool spec).spool.fragment, chunks.join⟩).sum =
        sha1sum chunks.join ∧
      (serveAppend v hdr spool spec chunks none none none).2 =
        .ok { header := some hdr,
              commit := some ⟨spool.fragment.journal, spool.fragment.end_,
                spool.fragment.end_ + (chunks.join.length : Int), sha1sum chunks.join,
                0, ""⟩ }) ∧
    (∀ (e : String) (recvErr : Option String),
      (serveAppend v hdr spool spec chunks (some e) none recvErr).1.scattered.filter
          (fun r => r.acknowledge) =
        [{ proposal := some (beginAppending spool spec).spool.fragment,
           acknowledge := true }] ∧
      (beginAppending spool spec).spool.fragment.end_ = spool.fragment.end_ ∧
      (serveAppend v hdr spool spec chunks (some e) none recvErr).1.reqErr = some e ∧
      (serveAppend v hdr spool spec chunks (some e) none recvErr).1.reqFragment = none ∧
      (serveAppend v hdr spool spec chunks (some e) none recvErr).2 = .error e) := by
  obtain ⟨hbf, hbe, hbc, hbend, hbj, hbcon, hbsc⟩ := beginAppending_facts spool spec
  constructor
  · obtain ⟨h1, h2, h3, h4, h5⟩ := runRecv_eof v chunks (beginAppending spool spec)
      ⟨spool.fragment.journal, spool.fragment.end_, spool.fragment.end_, [], 0, ""⟩
      hbf hbe hall
    rw [hbsc, hbcon hc] at h4
    rw [hbcon hc] at h5
    simp only [List.nil_append] at h4
    refine ⟨?_, ?_, ?_, ?_, ?_, ?_⟩
    · simpa [serveAppend] using h4
    · simpa [serveAppend] using h5
    · simp [Spool.next, hbend]
    · simp [Spool.next, hbend]
    · simp [Spool.next]
    · simp only [serveAppend]
      rw [show (runRecv v none (beginAppending spool spec) chunks none).reqErr = none from h2]
      simp only [appendRpcResult]
      rw [h1]
      simp [sha1sum, hbc]
  · intro e recvErr
    obtain ⟨h1, h2, h3, h4, h5⟩ := runRecv_err v chunks (beginAppending spool spec)
      ⟨spool.fragment.journal, spool.fragment.end_, spool.fragment.end_, [], 0, ""⟩ e
      hbf hbe hall
    rw [hbsc] at h4
    simp only [List.nil_append] at h4
    refine ⟨?_, hbend, ?_, ?_, ?_⟩
    · simpa [serveAppend] using h4
    · simpa [serveAppend] using h2
    · simpa [serveAppend] using h1
    · simp only [serveAppend]
      rw [show (runRecv v none (beginAppending spool spec) chunks (some e)).reqErr = some e
        from h2]
      simp [appendRpcResult]

/-- C1 witness: a concrete Append of "foo" (3 bytes) over a fresh spool
commits Fragment 0..3 on EOF, and the same stream ended by a read error
"boom" surfaces "boom" even when a pipeline receive error is present. -/
theorem appender_commit_and_rollback_witness :
    ((serveAppend allOk ⟨7⟩ ⟨⟨"j", 0, 0, [], 1, ""⟩, []⟩ ⟨1024, 1, []⟩
        [[102, 111, 111]] none none none).2 =
      .ok { header := some ⟨7⟩, commit := some ⟨"j", 0, 3, [102, 111, 111], 0, ""⟩ }) ∧
    ((serveAppend allOk ⟨7⟩ ⟨⟨"j", 0, 0, [], 1, ""⟩, []⟩ ⟨1024, 1, []⟩
        [[102, 111, 111]] (some "boom") none (some "recv")).2 = .error "boom") := by
  have h := appender_commit_and_rollback allOk ⟨7⟩ ⟨⟨"j", 0, 0, [], 1, ""⟩, []⟩
    ⟨1024, 1, []⟩ [[102, 111, 111]] rfl (by decide)
  exact ⟨h.1.2.2.2.2.2, (h.2 "boom" (some "recv")).2.2.2.2⟩

/-- C3 counterexample: two successive successful Appends where the
second carries no content messages (the client sends only the initial
Journal message and EOF): both succeed, but the second Commit's End
equals — does not strictly exceed — the first's. -/
theorem append_empty_commit_equal_end :
    (runAppends allOk ⟨1024, 1, []⟩ ⟨⟨"j", 0, 0, [], 1, ""⟩, []⟩
        [([[97]], none), ([], none)]).1 =
      [some ⟨"j", 0, 1, [97], 0, ""⟩, some ⟨"j", 1, 1, [], 0, ""⟩] ∧
    ¬ ((⟨"j", 1, 1, [], 0, ""⟩ : Fragment).end_ > (⟨"j", 0, 1, [97], 0, ""⟩ : Fragment).end_) := by
  refine ⟨by rfl, by decide⟩

/-- C3 amended: over a healthy pipeline, the committed End offsets of
successive successful Appends of one journal never decrease — each
Append starts its request Fragment at the Spool's current End and
advances it by the received byte count — and they strictly increase
whenever every Append carries at least one (necessarily non-empty)
content message and ends in a clean EOF. A successful Append with no
content messages commits the same End as its predecessor. -/
theorem appends_monotone_ends (v : Validators) (spec : JournalSpecFragment) :
    ∀ (sessions : List (List (List Nat) × Option String)) (spool : Spool),
      spool.content = [] →
      sessions.all (fun s => s.1.all (fun c => c.length ≠ 0)) = true →
      List.Chain (fun x y => x ≤ y) spool.fragment.end_
        (((runAppends v spec spool sessions).1.filterMap id).map (fun f => f.end_)) ∧
      (sessions.all (fun s => (decide (s.1 ≠ [])) && s.2.isNone) = true →
        List.Chain (fun x y => x < y) spool.fragment.end_
          (((runAppends v spec spool sessions).1.filterMap id).map (fun f => f.end_))) := by
  intro sessions
  induction sessions with
  | nil =>
    intro spool _ _
    exact ⟨List.Chain.nil, fun _ => List.Chain.nil⟩
  | cons s rest ih =>
    intro spool hc hall
    obtain ⟨chunks, term⟩ := s
    simp only [List.all_cons, Bool.and_eq_true] at hall
    obtain ⟨hbf, hbe, hbc, hbend, hbj, hbcon, hbsc⟩ := beginAppending_facts spool spec
    rcases term with _ | e
    · -- clean EOF: the session commits End + |content|
      obtain ⟨h1, h2, h3, h4, h5⟩ := runRecv_eof v chunks (beginAppending spool spec)
        ⟨spool.fragment.journal, spool.fragment.end_, spool.fragment.end_, [], 0, ""⟩
        hbf hbe hall.1
      have h1' : (runRecv v none (beginAppending spool spec) chunks none).reqFragment =
          some ⟨spool.fragment.journal, spool.fragment.end_,
            spool.fragment.end_ + (chunks.join.length : Int),
            sha1sum ((beginAppending spool spec).reqContent ++ chunks.join), 0, ""⟩ := h1
      rw [hbcon hc] at h3
      have hspc : (runRecv v none (beginAppending spool spec) chunks none).spool.content
          = [] := by rw [h3]
      have hspe : (runRecv v none (beginAppending spool spec) chunks none).spool.fragment.end_
          = spool.fragment.end_ + (chunks.join.length : Int) := by
        rw [h3]
        simp [Spool.next, hbend]
      have hih := ih (runRecv v none (beginAppending spool spec) chunks none).spool hspc hall.2
      rw [hspe] at hih
      simp only [runAppends, h1', List.filterMap_cons, List.map_cons, id]
      constructor
      · exact List.Chain.cons (by omega) hih.1
      · intro hstrict
        simp only [List.all_cons, Bool.and_eq_true] at hstrict
        have hpos : 0 < chunks.join.length := by
          rcases chunks with _ | ⟨c, cs⟩
          · exact absurd hstrict.1.1 (by decide)
          · have hcl : c.length ≠ 0 := by
              simp only [List.all_cons, Bool.and_eq_true] at hall
              simpa using hall.1.1
            have hj : (c :: cs).join = c ++ cs.join := rfl
            rw [hj, List.length_append]
            omega
        exact List.Chain.cons (by omega) (hih.2 (by simpa using hstrict.2))
    · -- read error: no commit, the Spool End is unchanged
      obtain ⟨h1, h2, h3, h4, h5⟩ := runRecv_err v chunks (beginAppending spool spec)
        ⟨spool.fragment.journal, spool.fragment.end_, spool.fragment.end_, [], 0, ""⟩ e
        hbf hbe hall.1
      have hspc : (runRecv v none (beginAppending spool spec) chunks (some e)).spool.content
          = [] := by rw [h3]
      have hspe :
          (runRecv v none (beginAppending spool spec) chunks (some e)).spool.fragment.end_
          = spool.fragment.end_ := by
        rw [h3]
        simpa using hbend
      have hih := ih (runRecv v none (beginAppending spool spec) chunks (some e)).spool
        hspc hall.2
      rw [hspe] at hih
      simp only [runAppends, h1, List.filterMap_cons, id]
      exact ⟨hih.1, fun hstrict => by
        simp only [List.all_cons, Bool.and_eq_true] at hstrict
        exact absurd hstrict.1.2 (by simp)⟩

/-- C3 witness: the amended monotonicity applied to a concrete run of
three Appends — "a" then an errored append then "bc" — whose committed
Ends are 1 and 3: the chain 0 ≤ 1 ≤ 3 holds, and with the errored
session removed the strict chain 0 < 1 < 3 holds. -/
theorem appends_monotone_ends_witness :
    List.Chain (fun x y => x ≤ y) (0 : Int)
      (((runAppends allOk ⟨1024, 1, []⟩ ⟨⟨"j", 0, 0, [], 1, ""⟩, []⟩
          [([[97]], none), ([[98]], some "boom"), ([[98, 99]], none)]).1.filterMap id).map
        (fun f => f.end_)) ∧
    List.Chain (fun x y => x < y) (0 : Int)
      (((runAppends allOk ⟨1024, 1, []⟩ ⟨⟨"j", 0, 0, [], 1, ""⟩, []⟩
          [([[97]], none), ([[98, 99]], none)]).1.filterMap id).map
        (fun f => f.end_)) := by
  constructor
  · exact (appends_monotone_ends allOk ⟨1024, 1, []⟩
      [([[97]], none), ([[98]], some "boom"), ([[98, 99]], none)]
      ⟨⟨"j", 0, 0, [], 1, ""⟩, []⟩ rfl (by decide)).1
  · exact (appends_monotone_ends allOk ⟨1024, 1, []⟩
      [([[97]], none), ([[98, 99]], none)]
      ⟨⟨"j", 0, 0, [], 1, ""⟩, []⟩ rfl (by decide)).2 (by decide)
